import Mathlib

/-! Verification of the game-time scheduling and overlap-detection engine of the
last_war_strategy repository.  Instants are modelled as integer minute counts;
a pendulum DateTime in a fixed-offset timezone is a pair of an absolute instant
and an offset, both in minutes.  Fallible Python code (code that can raise) is
embedded as Except-valued functions. -/

namespace LastWar

/-! ## Character and string primitives -/

/-- ASCII word-character test for the regex word class: letters, digits and
underscore.  The schedule data is ASCII, so the ASCII reading of the class is
the one exercised. -/
def isWordChar (c : Char) : Bool := c.isAlphanum || c = '_'

/-- Lowercase every character, mirroring Python str.lower on ASCII data. -/
def lowerChars (l : List Char) : List Char := l.map Char.toLower

/-- Split a character list at every occurrence of a one-character separator,
mirroring Python str.split with that separator: n separators yield n+1 fields,
empty fields included, and no stripping. -/
def splitOnChar (sep : Char) : List Char → List (List Char)
  | [] => [[]]
  | c :: rest =>
    match splitOnChar sep rest with
    | [] => [[]]
    | part :: parts => if c = sep then [] :: part :: parts else (c :: part) :: parts

/-- String-valued wrapper of splitOnChar. -/
def splitOnCharS (sep : Char) (s : String) : List String :=
  (splitOnChar sep s.data).map List.asString

/-- Parse a nonempty all-digit character list as a natural number. -/
def parseDigits (l : List Char) : Option Nat :=
  if l = [] then none
  else if l.all Char.isDigit then
    some (l.foldl (fun acc c => acc * 10 + (c.toNat - 48)) 0)
  else none

/-- Mirrors Python int() on a decimal string: an optional minus sign followed by
digits; anything else raises, which the model returns as none. -/
def parseInt : List Char → Option Int
  | '-' :: rest => (parseDigits rest).map (fun n => -(n : Int))
  | l => (parseDigits l).map (fun n => (n : Int))

/-- Mirrors the unpacking sh, sm = map(int, s.split(sep)) with a colon
separator: exactly two fields, each a parseable integer, otherwise the Python
code raises ValueError. -/
def parseHM (s : String) : Option (Int × Int) :=
  match (splitOnChar ':' s.data).map parseInt with
  | [some h, some m] => some (h, m)
  | _ => none

/-! ## Wall-clock helpers on plain minute counts (a single time frame) -/

/-- Weekday names as produced by the dddd format. -/
def weekdayNames : List String :=
  ["Monday", "Tuesday", "Wednesday", "Thursday", "Friday", "Saturday", "Sunday"]

/-- Day-of-week name of a wall-clock instant, with minute 0 falling on a
Monday 00:00 (the epoch convention of the model). -/
def dayNameOf (t : Int) : String :=
  weekdayNames.getD ((t / 1440) % 7).toNat "Monday"

/-- pendulum start_of day: midnight of the calendar day containing t. -/
def dayStartOf (t : Int) : Int := t - t % 1440

/-- The hour field of a wall-clock instant. -/
def hourOfDay (t : Int) : Int := (t % 1440) / 60

/-! ## helpers.word_in_text -/

/-- Whether the character at position i of text is a word character; out of
range counts as non-word, as at the ends of a regex subject. -/
def wordCharAt (text : List Char) (i : Nat) : Bool :=
  match text.get? i with
  | some c => isWordChar c
  | none => false

/-- The regex word-boundary assertion at position i: exactly one of the two
adjacent characters (the one before position i and the one at position i) is a
word character. -/
def boundaryAt (text : List Char) (i : Nat) : Bool :=
  (decide (0 < i) && wordCharAt text (i - 1)) != wordCharAt text i

/-- The escaped keyword matches at position i of the text, between two word
boundaries. -/
def matchesAt (kw text : List Char) (i : Nat) : Bool :=
  decide ((text.drop i).take kw.length = kw)
    && boundaryAt text i && boundaryAt text (i + kw.length)

/-- Shallow embedding of helpers.word_in_text: search the lowercased,
regex-escaped (hence literal) keyword in the lowercased text, delimited by word
boundaries on both sides. -/
def word_in_text (keyword text : String) : Bool :=
  (List.range ((lowerChars text.data).length + 1)).any
    (fun i => matchesAt (lowerChars keyword.data) (lowerChars text.data) i)

/-! ## helpers.is_event_in_window -/

/-- A row of the special events table.  All fields are the raw CSV strings,
as the Python code reads them. -/
structure SpecialEventRow where
  name : String
  days : String
  freq : String
  ref_week : String
  start_time : String
  end_time : String
deriving Repr, DecidableEq

/-- The tail of is_event_in_window after the day and parity guards: build the
event datetimes on the calendar date of the window, wrap the end past midnight
when end is at or before start, and run the half-open overlap test.  A field
that int() or the datetime setter rejects raises, modelled as error. -/
def evalEventWindow (row : SpecialEventRow) (window_start : Int) : Except Unit Bool :=
  match parseHM row.start_time, parseHM row.end_time with
  | some (sh, sm), some (eh, em) =>
    if 0 ≤ sh ∧ sh < 24 ∧ 0 ≤ sm ∧ sm < 60 ∧ 0 ≤ eh ∧ eh < 24 ∧ 0 ≤ em ∧ em < 60 then
      let base := dayStartOf window_start
      let evt_start := base + sh * 60 + sm
      let evt_end0 := base + eh * 60 + em
      let evt_end := if evt_end0 ≤ evt_start then evt_end0 + 1440 else evt_end0
      let win_end := window_start + 240
      .ok (decide (evt_start < win_end ∧ window_start < evt_end))
    else .error ()
  | _, _ => .error ()

/-- Shallow embedding of helpers.is_event_in_window.  Both the window start and
the event times live in the server wall-clock frame, as the source assumes; the
week_of_year function of the calendar is passed as a parameter.  Python
exceptions (unparseable time fields) are modelled as Except.error. -/
def is_event_in_window (weekOfYear : Int → Int) (row : SpecialEventRow)
    (window_start : Int) : Except Unit Bool :=
  if dayNameOf window_start ∉ splitOnCharS ',' row.days then .ok false
  else if row.freq = "biweekly" then
    match parseInt row.ref_week.data with
    | none => .error ()
    | some rw =>
      if weekOfYear window_start % 2 ≠ rw % 2 then .ok false
      else evalEventWindow row window_start
  else evalEventWindow row window_start

/-! ## time_utils.setup_timezone_and_time: the clock and slot resolver -/

/-- Server-time boundaries of the six slots, from constants.SLOT_START_HOURS. -/
def SLOT_START_HOURS : List Int := [0, 4, 8, 12, 16, 20]

/-- current_slot = now_server.hour floor-div 4, plus 1. -/
def current_slot (t : Int) : Int := hourOfDay t / 4 + 1

/-- active_start = start of the server day plus the start hour of the current
slot, looked up in SLOT_START_HOURS. -/
def active_start (t : Int) : Int :=
  dayStartOf t + 60 * SLOT_START_HOURS.getD (current_slot t - 1).toNat 0

/-- The pure core of setup_timezone_and_time: game day name, slot index and
slot window start, all derived from the server wall-clock instant. -/
def setup_timezone_and_time (t : Int) : String × Int × Int :=
  (dayNameOf t, current_slot t, active_start t)

instance : DecidableEq (Except Unit Bool)
  | .ok x, .ok y =>
    if h : x = y then isTrue (congrArg Except.ok h)
    else isFalse (fun hc => h (Except.ok.inj hc))
  | .error (), .error () => isTrue rfl
  | .ok _, .error _ => isFalse (fun hc => Except.noConfusion hc)
  | .error _, .ok _ => isFalse (fun hc => Except.noConfusion hc)

/-! ## Aware datetimes: an absolute instant together with a fixed UTC offset -/

/-- A pendulum DateTime in a fixed-offset timezone: the absolute instant and the
offset, both in minutes.  Comparisons between datetimes compare instants; the
wall-clock fields read the shifted value. -/
structure PDateTime where
  instant : Int
  offset : Int
deriving Repr, DecidableEq

/-- The wall-clock minute count the datetime displays. -/
def PDateTime.wall (d : PDateTime) : Int := d.instant + d.offset

/-- pendulum start_of day: midnight of the wall-clock calendar day. -/
def PDateTime.startOfDay (d : PDateTime) : PDateTime :=
  ⟨d.instant - d.wall % 1440, d.offset⟩

/-- pendulum add or subtract, in minutes. -/
def PDateTime.addMinutes (d : PDateTime) (m : Int) : PDateTime :=
  ⟨d.instant + m, d.offset⟩

/-- The hour field of the wall clock. -/
def PDateTime.hour (d : PDateTime) : Int := d.wall % 1440 / 60

/-- pendulum in_tz: same instant, displayed at another offset. -/
def PDateTime.inTz (d : PDateTime) (o : Int) : PDateTime := ⟨d.instant, o⟩

/-- pendulum set with hour, minute and second: keep the wall-clock calendar
day, replace the time of day. -/
def PDateTime.setTime (d : PDateTime) (h m : Int) : PDateTime :=
  ⟨d.instant - d.wall % 1440 + h * 60 + m, d.offset⟩

/-- The wall-clock calendar day index, as used for a YYYY-MM-DD date string. -/
def PDateTime.dateIdx (d : PDateTime) : Int := d.wall / 1440

/-! ## task_manager: active instances, expiry sweep and the daily ledger -/

/-- A row of the active daily tasks table.  The two stored times are UTC
instants in minutes. -/
structure ActiveTask where
  task_id : String
  task_name : String
  start_time_utc : Int
  duration_minutes : Int
  end_time_utc : Int
  status : String
deriving Repr, DecidableEq

/-- task_manager.cleanup_expired_tasks rewrites the store keeping exactly the
instances whose end time is strictly after now. -/
def cleanup_expired_tasks (tasks : List ActiveTask) (now_utc : Int) : List ActiveTask :=
  tasks.filter (fun tk => decide (now_utc < tk.end_time_utc))

/-- The prefix of a name before the first occurrence of the two-character
marker space-then-open-paren, mirroring the split at that marker in
get_daily_activation_count (field 0 of the split; the whole name when the
marker does not occur). -/
def splitBaseChars : List Char → List Char
  | [] => []
  | c :: rest =>
    if c = ' ' ∧ rest.head? = some '(' then []
    else c :: splitBaseChars rest

/-- String-valued base name, as the ledger computes it. -/
def base_name_of (s : String) : String := (splitBaseChars s.data).asString

/-- The reset instant used by get_daily_activation_count: 02:00 server wall
clock of the current server day, moved one day back when the server hour is
before 2. -/
def dailyReset (now_srv : PDateTime) : PDateTime :=
  let r := now_srv.startOfDay.addMinutes 120
  if now_srv.hour < 2 then r.addMinutes (-1440) else r

/-- Shallow embedding of task_manager.get_daily_activation_count: loop over the
stored instances, counting those whose split base name equals the queried name
and whose start instant is at or after the reset instant (pendulum comparisons
compare absolute instants). -/
def get_daily_activation_count (tasks : List ActiveTask) (task_name : String)
    (now_srv : PDateTime) : Nat :=
  tasks.foldl (fun count tk =>
    if base_name_of tk.task_name = task_name then
      if (dailyReset now_srv).instant ≤ tk.start_time_utc then count + 1 else count
    else count) 0

/-- The dashboard activation gate: remaining = max_daily minus the activation
count; activation buttons are enabled iff remaining is positive. -/
def can_activate_dash (tasks : List ActiveTask) (name : String) (max_daily : Int)
    (now_srv : PDateTime) : Bool :=
  decide (0 < max_daily - (get_daily_activation_count tasks name now_srv : Int))

/-- The instance row the dashboard persists on activation: the stored name is
the template name followed by the rarity level in parentheses, and the end
instant is the start plus the duration. -/
def mk_dash_instance (name level : String) (now_utc duration : Int) : ActiveTask :=
  { task_id := name ++ "_" ++ toString now_utc
  , task_name := name ++ " (" ++ level ++ ")"
  , start_time_utc := now_utc
  , duration_minutes := duration
  , end_time_utc := now_utc + duration
  , status := "active" }

/-- Activation appends the new instance row to the store. -/
def activate_dash (tasks : List ActiveTask) (name level : String)
    (now_utc duration : Int) : List ActiveTask :=
  tasks ++ [mk_dash_instance name level now_utc duration]

/-- The ledger count worded as the specification states it: instances whose
base name is the stored name with a trailing rarity suffix stripped, started at
or after the most recent reset.  Kept beside the source-derived ledger for the
refinement comparison. -/
def RARITIES : List String := ["N", "R", "SR", "SSR", "UR"]

/-- Whether suf is a suffix of l, by characters. -/
def hasSuffixChars (l suf : List Char) : Bool :=
  decide (suf.length ≤ l.length) && decide (l.drop (l.length - suf.length) = suf)

/-- The specification wording of base-name extraction: strip a trailing
rarity suffix of the form space-open-paren RARITY close-paren. -/
def spec_base_name (s : String) : String :=
  match RARITIES.find? (fun r => hasSuffixChars s.data (" (" ++ r ++ ")").data) with
  | some r => (s.data.take (s.data.length - (" (" ++ r ++ ")").data.length)).asString
  | none => s

/-- The specification wording of the daily ledger count. -/
def spec_daily_count (tasks : List ActiveTask) (name : String) (now_srv : PDateTime) : Nat :=
  (tasks.filter (fun tk =>
    decide (spec_base_name tk.task_name = name)
      && decide ((dailyReset now_srv).instant ≤ tk.start_time_utc))).length

/-! ## slot_swap: the daily slot swap override -/

/-- The persisted slot swap override.  The stored date string YYYY-MM-DD is
modelled by its calendar day index. -/
structure SwapData where
  date : Int
  from_slot : Int
  to_slot : Int
deriving Repr, DecidableEq

/-- pendulum parse of a date-only string at timezone UTC: midnight UTC of that
calendar day. -/
def SwapData.dateInstantUTC (sd : SwapData) : PDateTime := ⟨sd.date * 1440, 0⟩

/-- Shallow embedding of slot_swap.is_swap_expired: convert the UTC-parsed swap
date into the server timezone, set the wall clock to 02:00, add one day, and
report expiry when the current server instant is at or past that end. -/
def is_swap_expired (sd : SwapData) (now_server : PDateTime) : Bool :=
  let swap_date := sd.dateInstantUTC.inTz now_server.offset
  let swap_reset_start := swap_date.setTime 2 0
  let swap_reset_end := swap_reset_start.addMinutes 1440
  decide (swap_reset_end.instant ≤ now_server.instant)

/-- Shallow embedding of slot_swap.can_swap_today, returning the decision and
the store after the lazy deletion of an expired override. -/
def can_swap_today (store : Option SwapData) (now_server : PDateTime) :
    Bool × Option SwapData :=
  match store with
  | none => (true, none)
  | some sd => if is_swap_expired sd now_server then (true, none) else (false, some sd)

/-- The dashboard arming path: the swap form, and with it save_daily_slot_swap,
is only reachable when can_swap_today answers true; the saved date is the
server date of now.  Returns whether the arming was accepted and the resulting
store. -/
def arm_slot_swap (store : Option SwapData) (now_server : PDateTime)
    (f t : Int) : Bool × Option SwapData :=
  let res := can_swap_today store now_server
  if res.1 then (true, some ⟨now_server.dateIdx, f, t⟩) else (false, res.2)

/-- The end of the game-day reset-to-reset validity window the specification
ascribes to an override armed on a given server date: the next 02:00 server
reset after that game day, as an absolute instant.  Worded from the spec for
the refinement comparison with is_swap_expired. -/
def spec_game_day_window_end (dateIdx offset : Int) : Int :=
  dateIdx * 1440 + 120 + 1440 - offset

/-- A row of the merged schedule dataframe.  The column named Type in the
source is rendered typ, Type being reserved in Lean. -/
structure SlotRow where
  Day : String
  typ : String
  Slot : Int
  Event : String
  Task : String
  Points : String
deriving Repr, DecidableEq

/-- The row mask for the queried day's Arms Race rows. -/
def isTodayAR (day : String) (r : SlotRow) : Bool :=
  r.Day == day && r.typ == "Arms Race"

/-- Shallow embedding of slot_swap.apply_slot_swap: with no override or an
expired one the frame is returned unchanged; otherwise the day's Arms Race
rows are separated, their slot tags rewritten through the temporary tag -1
(from_slot to -1, then to_slot to from_slot, then -1 to to_slot), and
reattached after the remaining rows.  The function builds a new list and never
writes the store, mirroring the copy-then-concat of the source. -/
def apply_slot_swap (df : List SlotRow) (day : String) (now_server : PDateTime)
    (store : Option SwapData) : List SlotRow :=
  match store with
  | none => df
  | some sd =>
    if is_swap_expired sd now_server then df
    else
      let from_slot := sd.from_slot
      let to_slot := sd.to_slot
      let today_ar := df.filter (isTodayAR day)
      if today_ar.isEmpty then df
      else
        let step1 := today_ar.map (fun r =>
          if r.Slot = from_slot then { r with Slot := -1 } else r)
        let step2 := step1.map (fun r =>
          if r.Slot = to_slot then { r with Slot := from_slot } else r)
        let step3 := step2.map (fun r =>
          if r.Slot = -1 then { r with Slot := to_slot } else r)
        df.filter (fun r => !isTodayAR day r) ++ step3

/-- The two-cycle on slot tags: from and to exchanged, all else fixed. -/
def swap2 (f t s : Int) : Int := if s = f then t else if s = t then f else s

/-- The specification wording of the swap as a permutation of the slot tags of
the queried day's Arms Race rows: from and to exchanged, everything else
untouched. -/
def spec_retag (day : String) (f t : Int) (r : SlotRow) : SlotRow :=
  if isTodayAR day r then { r with Slot := swap2 f t r.Slot } else r

/-! ## Secretary buff override -/

/-- The singleton secretary buff record, stored times being UTC instants in
minutes. -/
structure SecEvent where
  typ : String
  start_time_utc : Int
  end_time_utc : Int
deriving Repr, DecidableEq

/-- The set path of the secretary page: the end instant is always the start
plus five minutes, and the singleton store is overwritten unconditionally. -/
def set_secretary_buff (_store : Option SecEvent) (typ : String)
    (start_utc : Int) : Option SecEvent :=
  some ⟨typ, start_utc, start_utc + 5⟩

/-- The dashboard read path: a buff whose end has been reached is cleared on
first observation; otherwise the store is left as it is. -/
def observe_secretary : Option SecEvent → Int → Option SecEvent
  | none, _ => none
  | some e, now_utc => if e.end_time_utc ≤ now_utc then none else some e

/-- The explicit clear button. -/
def clear_secretary_buff (_store : Option SecEvent) : Option SecEvent := none

/-- The operations the engine itself performs on the secretary store. -/
inductive SecStep : Option SecEvent → Option SecEvent → Prop
  | set (st : Option SecEvent) (typ : String) (s : Int) :
      SecStep st (set_secretary_buff st typ s)
  | observe (st : Option SecEvent) (now : Int) :
      SecStep st (observe_secretary st now)
  | clear (st : Option SecEvent) : SecStep st (clear_secretary_buff st)

/-- States of the secretary store reachable from the empty store through the
engine's own operations. -/
inductive SecReachable : Option SecEvent → Prop
  | init : SecReachable none
  | step {st st' : Option SecEvent} :
      SecReachable st → SecStep st st' → SecReachable st'

/-! ## Theorems -/

/-- Instants of the same calendar day share their weekday name. -/
theorem dayNameOf_shift (d x : Int) (hx : 0 ≤ x) (hx' : x < 1440) :
    dayNameOf (d * 1440 + x) = dayNameOf (d * 1440) := by
  have h1 : (d * 1440 + x) / 1440 = d := by omega
  have h2 : d * 1440 / 1440 = d := by omega
  unfold dayNameOf
  rw [h1, h2]

/-- The window test of an event authored 22:00 to 02:00 reduces to the overlap
of the window with the interval 22:00 of the window's own day to 02:00 of the
next day. -/
theorem evalEventWindow_2202 (row : SpecialEventRow) (hs : row.start_time = "22:00")
    (he : row.end_time = "02:00") (t : Int) :
    evalEventWindow row t =
      .ok (decide (dayStartOf t + 1320 < t + 240 ∧ t < dayStartOf t + 1560)) := by
  unfold evalEventWindow
  rw [hs, he]
  rw [show parseHM "22:00" = some (22, 0) from rfl, show parseHM "02:00" = some (2, 0) from rfl]
  dsimp only
  rw [if_pos (by norm_num)]
  norm_num
  rw [show dayStartOf t + 120 + 1440 = dayStartOf t + 1560 from by omega]

/-- C1, counterexample.  The claim asserts that a 22:00-02:00 weekly event is
active for the candidate window starting at 00:00 server time on an active
day; the code returns false there, because it anchors the event to the
window's own calendar date, whose 22:00 start lies entirely after the
00:00-04:00 window. -/
theorem C1_counterexample :
    is_event_in_window (fun _ => 0)
      ⟨"Evt", "Monday", "weekly", "0", "22:00", "02:00"⟩ 0 = Except.ok false := by
  decide

/-- C1, amended.  For a weekly event with start 22:00 and end 02:00 and a
window day in its day set, is_event_in_window is true for the candidate
windows starting at 20:00 and 22:00 and false for the windows starting at
00:00 and 04:00: the post-midnight tail of the wrapped event is not detected,
since event datetimes are built on the candidate window's calendar date. -/
theorem C1_amended_midnight_windows (wof : Int → Int) (row : SpecialEventRow) (d : Int)
    (hfreq : row.freq = "weekly") (hs : row.start_time = "22:00")
    (he : row.end_time = "02:00")
    (hday : dayNameOf (d * 1440) ∈ splitOnCharS ',' row.days) :
    is_event_in_window wof row (d * 1440 + 1200) = Except.ok true
  ∧ is_event_in_window wof row (d * 1440 + 1320) = Except.ok true
  ∧ is_event_in_window wof row (d * 1440) = Except.ok false
  ∧ is_event_in_window wof row (d * 1440 + 240) = Except.ok false := by
  have hd0 : dayStartOf (d * 1440) = d * 1440 := by unfold dayStartOf; omega
  have hd1 : dayStartOf (d * 1440 + 1200) = d * 1440 := by unfold dayStartOf; omega
  have hd2 : dayStartOf (d * 1440 + 1320) = d * 1440 := by unfold dayStartOf; omega
  have hd3 : dayStartOf (d * 1440 + 240) = d * 1440 := by unfold dayStartOf; omega
  refine ⟨?_, ?_, ?_, ?_⟩ <;> unfold is_event_in_window
  · rw [dayNameOf_shift d 1200 (by norm_num) (by norm_num),
      if_neg (not_not_intro hday), hfreq, if_neg (by decide),
      evalEventWindow_2202 row hs he, hd1]
    simp only [Except.ok.injEq, decide_eq_true_eq]
    omega
  · rw [dayNameOf_shift d 1320 (by norm_num) (by norm_num),
      if_neg (not_not_intro hday), hfreq, if_neg (by decide),
      evalEventWindow_2202 row hs he, hd2]
    simp only [Except.ok.injEq, decide_eq_true_eq]
    omega
  · rw [if_neg (not_not_intro hday), hfreq, if_neg (by decide),
      evalEventWindow_2202 row hs he, hd0]
    simp only [Except.ok.injEq, decide_eq_false_iff_not]
    omega
  · rw [dayNameOf_shift d 240 (by norm_num) (by norm_num),
      if_neg (not_not_intro hday), hfreq, if_neg (by decide),
      evalEventWindow_2202 row hs he, hd3]
    simp only [Except.ok.injEq, decide_eq_false_iff_not]
    omega

/-- C1, witness: the amended theorem applied to a concrete Tuesday event. -/
theorem C1_witness :
    is_event_in_window (fun _ => 0)
      ⟨"Evt", "Tuesday", "weekly", "0", "22:00", "02:00"⟩ (1 * 1440 + 1200) = Except.ok true
  ∧ is_event_in_window (fun _ => 0)
      ⟨"Evt", "Tuesday", "weekly", "0", "22:00", "02:00"⟩ (1 * 1440 + 1320) = Except.ok true
  ∧ is_event_in_window (fun _ => 0)
      ⟨"Evt", "Tuesday", "weekly", "0", "22:00", "02:00"⟩ (1 * 1440) = Except.ok false
  ∧ is_event_in_window (fun _ => 0)
      ⟨"Evt", "Tuesday", "weekly", "0", "22:00", "02:00"⟩ (1 * 1440 + 240) = Except.ok false :=
  C1_amended_midnight_windows (fun _ => 0) _ 1 rfl rfl rfl (by decide)

/-- The slot window start equals the day start plus slot-many four-hour
strides, the list lookup of SLOT_START_HOURS resolved. -/
theorem activeStart_eq (t : Int) :
    active_start t = dayStartOf t + (current_slot t - 1) * 240 := by
  have h : hourOfDay t / 4 = 0 ∨ hourOfDay t / 4 = 1 ∨ hourOfDay t / 4 = 2 ∨
      hourOfDay t / 4 = 3 ∨ hourOfDay t / 4 = 4 ∨ hourOfDay t / 4 = 5 := by
    unfold hourOfDay; omega
  unfold active_start current_slot
  rcases h with h | h | h | h | h | h <;> rw [h] <;> norm_num [SLOT_START_HOURS] <;> rfl

/-- C2.  The resolver always yields a slot in 1..6; the instant lies inside
its own slot window; any admissible slot window containing the instant is the
resolved one (so the six four-hour windows of a day tile it with no gaps or
overlaps, every instant belonging to exactly one); and the resolver is the
total function returning the day name, slot and window start. -/
theorem C2_slot_resolver : ∀ t : Int,
    (1 ≤ current_slot t ∧ current_slot t ≤ 6)
  ∧ active_start t = dayStartOf t + (current_slot t - 1) * 240
  ∧ (active_start t ≤ t ∧ t < active_start t + 240)
  ∧ (∀ s : Int, 1 ≤ s → s ≤ 6 → dayStartOf t + (s - 1) * 240 ≤ t →
       t < dayStartOf t + s * 240 → s = current_slot t)
  ∧ setup_timezone_and_time t = (dayNameOf t, current_slot t, active_start t) := by
  intro t
  have hb := activeStart_eq t
  refine ⟨?_, hb, ?_, ?_, rfl⟩
  · unfold current_slot hourOfDay; omega
  · rw [hb]; unfold current_slot hourOfDay dayStartOf
    constructor <;> omega
  · intro s h1 h2 h3 h4
    unfold dayStartOf at h3 h4
    unfold current_slot hourOfDay
    omega

/-- C2, witness: the resolver at server minute 500 (08:20) sits in slot 3,
and the slot-3 window is the unique one containing it. -/
theorem C2_witness :
    (1 ≤ current_slot 500 ∧ current_slot 500 ≤ 6)
  ∧ (active_start 500 ≤ 500 ∧ (500 : Int) < active_start 500 + 240)
  ∧ (3 : Int) = current_slot 500 := by
  have h := C2_slot_resolver 500
  exact ⟨h.1, h.2.2.1, h.2.2.2.1 3 (by norm_num) (by norm_num) (by decide) (by decide)⟩

/-- The ledger counting loop computes the length of the filter over the store,
with the split base name and the reset comparison as the predicate. -/
theorem gdac_eq_filter (tasks : List ActiveTask) (name : String) (now : PDateTime) :
    get_daily_activation_count tasks name now
      = (tasks.filter (fun tk =>
          decide (base_name_of tk.task_name = name)
            && decide ((dailyReset now).instant ≤ tk.start_time_utc))).length := by
  unfold get_daily_activation_count
  suffices h : ∀ (l : List ActiveTask) (k : Nat),
      (l.foldl (fun count tk =>
        if base_name_of tk.task_name = name then
          if (dailyReset now).instant ≤ tk.start_time_utc then count + 1 else count
        else count) k)
      = k + (l.filter (fun tk =>
          decide (base_name_of tk.task_name = name)
            && decide ((dailyReset now).instant ≤ tk.start_time_utc))).length by
    simpa using h tasks 0
  intro l
  induction l with
  | nil => intro k; simp
  | cons tk l ih =>
    intro k
    by_cases h1 : base_name_of tk.task_name = name <;>
      by_cases h2 : (dailyReset now).instant ≤ tk.start_time_utc <;>
        simp [h1, h2, ih] <;> omega

/-- Appending the split marker and a remainder to a marker-free name splits
back to the name itself. -/
theorem splitBaseChars_append (l rest : List Char) (h : splitBaseChars l = l) :
    splitBaseChars (l ++ ' ' :: '(' :: rest) = l := by
  induction l with
  | nil => simp [splitBaseChars]
  | cons c l ih =>
    rw [splitBaseChars] at h
    by_cases hc : c = ' ' ∧ l.head? = some '('
    · rw [if_pos hc] at h
      exact absurd h (by simp)
    · rw [if_neg hc] at h
      have hl : splitBaseChars l = l := by
        injection h
      cases l with
      | nil =>
        simp only [List.cons_append, List.nil_append]
        rw [splitBaseChars, if_neg (by simp)]
        rw [splitBaseChars, if_pos ⟨rfl, rfl⟩]
      | cons d l' =>
        simp only [List.cons_append]
        rw [splitBaseChars, if_neg (by simpa using hc)]
        exact congrArg (List.cons c) (ih hl)

/-- The ledger base name of an engine-stored instance name, template plus
rarity suffix, is the template name, provided the template name is free of the
split marker. -/
theorem base_name_append (name level : String) (h : splitBaseChars name.data = name.data) :
    base_name_of (name ++ " (" ++ level ++ ")") = name := by
  unfold base_name_of
  rw [show (name ++ " (" ++ level ++ ")").data
      = name.data ++ ' ' :: '(' :: (level.data ++ [')']) from by
    simp [String.data_append]]
  rw [splitBaseChars_append _ _ h]
  rfl

/-- The reset instant of the ledger, written out: the wall minute of day
dropped to 02:00, one day earlier when the wall clock is before 02:00. -/
theorem dailyReset_eq (now : PDateTime) :
    dailyReset now = if (now.instant + now.offset) % 1440 / 60 < 2
      then ⟨now.instant - (now.instant + now.offset) % 1440 - 1320, now.offset⟩
      else ⟨now.instant - (now.instant + now.offset) % 1440 + 120, now.offset⟩ := by
  unfold dailyReset PDateTime.startOfDay PDateTime.addMinutes PDateTime.hour PDateTime.wall
  dsimp only
  split_ifs with h <;> congr 1 <;> omega

/-- C3, counterexample.  For the template named A (B) with one activation per
day and a stored instance A (B) (UR) started after the reset, the
specification's trailing-suffix base name matches the template, so the claim
denies a further activation; the code splits at the first marker, derives base
A, counts zero, and authorizes. -/
theorem C3_counterexample :
    can_activate_dash [mk_dash_instance "A (B)" "UR" 130 10] "A (B)" 1 ⟨135, 0⟩ = true
  ∧ spec_daily_count [mk_dash_instance "A (B)" "UR" 130 10] "A (B)" ⟨135, 0⟩ = 1 := by
  decide

/-- C3, amended.  Activation is authorized iff the ledger count is below the
template's daily maximum, where the count is the number of stored instances
whose name-before-the-first-marker equals the template name and whose start is
at or after the reset instant; the reset instant is the most recent 02:00
server wall-clock instant; an activation at or after the reset increments the
count by one for marker-free template names; and once every stored instance
started before the reset the count is zero. -/
theorem C3_amended_daily_ledger (tasks : List ActiveTask) (name : String)
    (maxD : Int) (now : PDateTime) :
    (can_activate_dash tasks name maxD now = true ↔
       (get_daily_activation_count tasks name now : Int) < maxD)
  ∧ get_daily_activation_count tasks name now
      = (tasks.filter (fun tk =>
          decide (base_name_of tk.task_name = name)
            && decide ((dailyReset now).instant ≤ tk.start_time_utc))).length
  ∧ ((dailyReset now).offset = now.offset
      ∧ (dailyReset now).wall % 1440 = 120
      ∧ (dailyReset now).instant ≤ now.instant
      ∧ now.instant < (dailyReset now).instant + 1440)
  ∧ (∀ (level : String) (t dur : Int), splitBaseChars name.data = name.data →
       (dailyReset now).instant ≤ t →
       get_daily_activation_count (activate_dash tasks name level t dur) name now
         = get_daily_activation_count tasks name now + 1)
  ∧ ((∀ tk ∈ tasks, tk.start_time_utc < (dailyReset now).instant) →
       get_daily_activation_count tasks name now = 0) := by
  refine ⟨?_, gdac_eq_filter tasks name now, ?_, ?_, ?_⟩
  · unfold can_activate_dash
    simp only [decide_eq_true_eq]
    omega
  · rw [dailyReset_eq]
    split_ifs with h <;>
      refine ⟨rfl, ?_, ?_, ?_⟩ <;>
        simp only [PDateTime.wall] <;> omega
  · intro level t dur hn ht
    rw [gdac_eq_filter, gdac_eq_filter]
    unfold activate_dash
    rw [List.filter_append, List.length_append]
    have hb : base_name_of (name ++ " (" ++ level ++ ")") = name :=
      base_name_append name level hn
    simp [mk_dash_instance, hb, ht]
  · intro hall
    rw [gdac_eq_filter]
    have hnil : tasks.filter (fun tk =>
        decide (base_name_of tk.task_name = name)
          && decide ((dailyReset now).instant ≤ tk.start_time_utc)) = [] := by
      rw [List.filter_eq_nil_iff]
      intro tk htk
      simp only [Bool.and_eq_true, decide_eq_true_eq, not_and]
      intro _
      exact not_le.mpr (hall tk htk)
    rw [hnil]
    rfl

/-- C3, witness: concrete ledger facts obtained from the amended theorem at
the empty store, template Trucks with daily maximum 1, server time 02:15. -/
theorem C3_witness :
    (can_activate_dash [] "Trucks" 1 ⟨135, 0⟩ = true ↔
       (get_daily_activation_count [] "Trucks" ⟨135, 0⟩ : Int) < 1)
  ∧ get_daily_activation_count (activate_dash [] "Trucks" "UR" 130 10) "Trucks" ⟨135, 0⟩
      = get_daily_activation_count [] "Trucks" ⟨135, 0⟩ + 1
  ∧ get_daily_activation_count [] "Trucks" ⟨135, 0⟩ = 0 := by
  have h := C3_amended_daily_ledger [] "Trucks" 1 ⟨135, 0⟩
  exact ⟨h.1, h.2.2.2.1 "UR" 130 10 (by decide) (by decide),
    h.2.2.2.2 (by intro tk htk; cases htk)⟩

/-- C4.  Keyword matching is whole-word and case-insensitive: the three
dictated examples evaluate as the claim states, and any successful match
locates the lowercased keyword in the lowercased text between two regex word
boundaries. -/
theorem C4_whole_word :
    word_in_text "art" "cartage" = false
  ∧ word_in_text "Hero" "Hero Shard" = true
  ∧ word_in_text "Hero" "hero" = true
  ∧ (∀ kw text : String, word_in_text kw text = true →
      ∃ i : Nat,
        ((lowerChars text.data).drop i).take (lowerChars kw.data).length = lowerChars kw.data
        ∧ boundaryAt (lowerChars text.data) i = true
        ∧ boundaryAt (lowerChars text.data) (i + (lowerChars kw.data).length) = true) := by
  refine ⟨by decide, by decide, by decide, ?_⟩
  intro kw text h
  unfold word_in_text at h
  rw [List.any_eq_true] at h
  obtain ⟨i, _, hm⟩ := h
  unfold matchesAt at hm
  simp only [Bool.and_eq_true, decide_eq_true_eq] at hm
  exact ⟨i, hm.1.1, hm.1.2, hm.2⟩

/-- C4, witness: the boundary decomposition extracted for the match of Hero
inside hero. -/
theorem C4_witness :
    word_in_text "art" "cartage" = false
  ∧ (∃ i : Nat,
      ((lowerChars "hero".data).drop i).take (lowerChars "Hero".data).length
        = lowerChars "Hero".data
      ∧ boundaryAt (lowerChars "hero".data) i = true
      ∧ boundaryAt (lowerChars "hero".data) (i + (lowerChars "Hero".data).length) = true) :=
  ⟨C4_whole_word.1, C4_whole_word.2.2.2 "Hero" "hero" (by decide)⟩

/-- C8, counterexample.  Within one reset cycle the expiry sweep removes an
instance that had started after the reset, so the derived count drops from one
to zero between two instants of the cycle, against the claimed monotonic
non-decrease under the engine's own operations. -/
theorem C8_counterexample :
    (135 : Int) ≤ 150
  ∧ dailyReset ⟨135, 0⟩ = dailyReset ⟨150, 0⟩
  ∧ get_daily_activation_count [mk_dash_instance "Trucks" "UR" 130 10] "Trucks" ⟨135, 0⟩ = 1
  ∧ cleanup_expired_tasks [mk_dash_instance "Trucks" "UR" 130 10] 150 = []
  ∧ get_daily_activation_count
      (cleanup_expired_tasks [mk_dash_instance "Trucks" "UR" 130 10] 150) "Trucks" ⟨150, 0⟩ = 0 := by
  decide

/-- C8, amended.  The derived count is monotonically non-decreasing under
activations alone, while the expiry sweep can only remove instances and hence
never increases, and may decrease, the count. -/
theorem C8_amended_monotonicity :
    ∀ (tasks : List ActiveTask) (tk : ActiveTask) (name : String) (now : PDateTime) (t : Int),
    get_daily_activation_count tasks name now
      ≤ get_daily_activation_count (tasks ++ [tk]) name now
  ∧ get_daily_activation_count (cleanup_expired_tasks tasks t) name now
      ≤ get_daily_activation_count tasks name now := by
  intro tasks tk name now t
  constructor
  · rw [gdac_eq_filter, gdac_eq_filter, List.filter_append, List.length_append]
    omega
  · rw [gdac_eq_filter, gdac_eq_filter]
    unfold cleanup_expired_tasks
    exact ((List.filter_sublist tasks).filter _).length_le

/-- Splitting a list by a mask, rewriting the selected part and reattaching it
after the rest, is a permutation of rewriting in place. -/
theorem filter_append_map_perm {α : Type} (p : α → Bool) (f : α → α) (l : List α) :
    (l.filter (fun a => !p a) ++ (l.filter p).map f).Perm
      (l.map (fun a => if p a then f a else a)) := by
  induction l with
  | nil => simp
  | cons a l ih =>
    by_cases h : p a = true
    · simp only [List.filter_cons, h, Bool.not_true, Bool.false_eq_true, if_false, if_true,
        List.map_cons, List.map, if_pos h]
      exact List.Perm.trans List.perm_middle (ih.cons _)
    · have h' : p a = false := by
        cases hpa : p a
        · rfl
        · exact absurd hpa h
      simp only [List.filter_cons, h', Bool.not_false, if_true, Bool.false_eq_true, if_false,
        List.map_cons, List.cons_append]
      exact ih.cons a

/-- The three masked slot rewrites of apply_slot_swap, composed, act on a
day's Arms Race row with a positive slot tag exactly as the claimed two-cycle
on the from and to tags. -/
theorem three_step_retag (day : String) (f t : Int) (hf : 1 ≤ f) (ht : 1 ≤ t)
    (r : SlotRow) (hP : isTodayAR day r = true) (hr : 1 ≤ r.Slot) :
    ((fun x => if x.Slot = -1 then { x with Slot := t } else x)
      ((fun x => if x.Slot = t then { x with Slot := f } else x)
        ((fun x => if x.Slot = f then { x with Slot := -1 } else x) r)))
    = spec_retag day f t r := by
  obtain ⟨D, T, S, E, K, P⟩ := r
  have hS : 1 ≤ S := hr
  unfold spec_retag swap2
  rw [if_pos hP]
  dsimp only
  by_cases h1 : S = f
  · rw [if_pos h1, if_pos h1]
    rw [if_neg (by omega : ¬(-1 : Int) = t)]
    dsimp only
    rw [if_pos rfl]
  · rw [if_neg h1, if_neg h1]
    by_cases h2 : S = t
    · rw [if_pos h2, if_pos h2]
      dsimp only
      rw [if_neg (by omega : ¬(f : Int) = -1)]
    · rw [if_neg h2, if_neg h2]
      rw [if_neg (by omega : ¬(S : Int) = -1)]

/-- apply_slot_swap with an unexpired override permutes the frame into the
in-place retagging of the day's Arms Race rows. -/
theorem apply_swap_perm_retag (df : List SlotRow) (day : String) (now : PDateTime)
    (sd : SwapData) (hexp : is_swap_expired sd now = false)
    (hf : 1 ≤ sd.from_slot) (ht : 1 ≤ sd.to_slot)
    (hsl : ∀ r ∈ df, isTodayAR day r = true → 1 ≤ r.Slot) :
    (apply_slot_swap df day now (some sd)).Perm
      (df.map (spec_retag day sd.from_slot sd.to_slot)) := by
  have hid : ∀ a : SlotRow,
      (if isTodayAR day a then spec_retag day sd.from_slot sd.to_slot a else a)
        = spec_retag day sd.from_slot sd.to_slot a := by
    intro a
    by_cases h : isTodayAR day a = true
    · rw [if_pos h]
    · rw [if_neg h]
      unfold spec_retag
      rw [if_neg h]
  unfold apply_slot_swap
  simp only [hexp, Bool.false_eq_true, if_false]
  by_cases hemp : (df.filter (isTodayAR day)).isEmpty
  · rw [if_pos hemp]
    have h0 : df.filter (isTodayAR day) = [] := by
      rwa [List.isEmpty_iff] at hemp
    have hall : ∀ r ∈ df, ¬(isTodayAR day r = true) :=
      List.filter_eq_nil_iff.mp h0
    have hmapid : df.map (spec_retag day sd.from_slot sd.to_slot) = df := by
      have hstep : ∀ r ∈ df, spec_retag day sd.from_slot sd.to_slot r = r := by
        intro r hrm
        unfold spec_retag
        rw [if_neg (hall r hrm)]
      calc df.map (spec_retag day sd.from_slot sd.to_slot)
          = df.map id := List.map_congr_left (fun a ha => (hstep a ha).trans rfl)
        _ = df := List.map_id df
    rw [hmapid]
  · rw [if_neg hemp]
    have hmaps : (((df.filter (isTodayAR day)).map
          (fun r => if r.Slot = sd.from_slot then { r with Slot := -1 } else r)).map
            (fun r => if r.Slot = sd.to_slot then { r with Slot := sd.from_slot } else r)).map
              (fun r => if r.Slot = -1 then { r with Slot := sd.to_slot } else r)
        = (df.filter (isTodayAR day)).map (spec_retag day sd.from_slot sd.to_slot) := by
      rw [List.map_map, List.map_map]
      refine List.map_congr_left ?_
      intro r hrm
      have hPm := List.mem_filter.mp hrm
      exact three_step_retag day sd.from_slot sd.to_slot hf ht r hPm.2
        (hsl r hPm.1 hPm.2)
    rw [hmaps]
    refine (filter_append_map_perm (isTodayAR day)
      (spec_retag day sd.from_slot sd.to_slot) df).trans ?_
    rw [List.map_congr_left (fun a _ => hid a)]

/-- C5.  With an unexpired override, the queried frame is a permutation of
the canonical frame with only the queried day's Arms Race slot tags rewritten,
from and to exchanged and every other row untouched; the function builds a new
list, leaving the input and the persisted schedule as they were. -/
theorem C5_swap_retag (df : List SlotRow) (day : String) (now : PDateTime)
    (sd : SwapData) (hexp : is_swap_expired sd now = false)
    (hf : 1 ≤ sd.from_slot) (ht : 1 ≤ sd.to_slot)
    (hsl : ∀ r ∈ df, isTodayAR day r = true → 1 ≤ r.Slot) :
    (apply_slot_swap df day now (some sd)).Perm
      (df.map (spec_retag day sd.from_slot sd.to_slot)) :=
  apply_swap_perm_retag df day now sd hexp hf ht hsl

/-- C5, witness: the permutation at a concrete three-row Monday frame with the
swap 2 to 5 armed and unexpired. -/
theorem C5_witness :
    (apply_slot_swap
      [⟨"Monday", "Arms Race", 2, "Hero Dev", "T", "P"⟩,
       ⟨"Monday", "Arms Race", 5, "Drone Boost", "T2", "P"⟩,
       ⟨"Monday", "VS", 0, "V", "T3", "P"⟩] "Monday" ⟨130, 0⟩ (some ⟨0, 2, 5⟩)).Perm
      ([⟨"Monday", "Arms Race", 2, "Hero Dev", "T", "P"⟩,
        ⟨"Monday", "Arms Race", 5, "Drone Boost", "T2", "P"⟩,
        ⟨"Monday", "VS", 0, "V", "T3", "P"⟩].map (spec_retag "Monday" 2 5)) :=
  C5_swap_retag _ _ _ _ (by decide) (by decide) (by decide) (by decide)

/-- The two-cycle on slot tags undoes itself. -/
theorem swap2_involutive (f t s : Int) : swap2 f t (swap2 f t s) = s := by
  unfold swap2
  split_ifs <;> omega

/-- The claimed retagging exchanges two tags, so it is an involution on rows. -/
theorem spec_retag_involutive (day : String) (f t : Int) (r : SlotRow) :
    spec_retag day f t (spec_retag day f t r) = r := by
  obtain ⟨D, T, S, E, K, P⟩ := r
  by_cases hP : isTodayAR day (⟨D, T, S, E, K, P⟩ : SlotRow) = true
  · have hP2 : isTodayAR day
        (⟨D, T, swap2 f t S, E, K, P⟩ : SlotRow) = true := hP
    unfold spec_retag
    rw [if_pos hP]
    dsimp only
    rw [if_pos hP2]
    rw [swap2_involutive]
  · unfold spec_retag
    rw [if_neg hP, if_neg hP]

/-- C10.  Applying the same armed, unexpired swap twice returns the schedule
to its original rows, as a multiset of records. -/
theorem C10_involution (df : List SlotRow) (day : String) (now : PDateTime)
    (sd : SwapData) (hexp : is_swap_expired sd now = false)
    (hf : 1 ≤ sd.from_slot) (ht : 1 ≤ sd.to_slot)
    (hsl : ∀ r ∈ df, isTodayAR day r = true → 1 ≤ r.Slot) :
    (apply_slot_swap (apply_slot_swap df day now (some sd)) day now (some sd)).Perm df := by
  have h1 := apply_swap_perm_retag df day now sd hexp hf ht hsl
  have hsl2 : ∀ r ∈ apply_slot_swap df day now (some sd),
      isTodayAR day r = true → 1 ≤ r.Slot := by
    intro r hrm hP
    have hrm2 : r ∈ df.map (spec_retag day sd.from_slot sd.to_slot) :=
      h1.mem_iff.mp hrm
    obtain ⟨r0, hr0, rfl⟩ := List.mem_map.mp hrm2
    by_cases h0 : isTodayAR day r0 = true
    · have hS := hsl r0 hr0 h0
      unfold spec_retag swap2
      rw [if_pos h0]
      dsimp only
      split_ifs <;> omega
    · have hr0id : spec_retag day sd.from_slot sd.to_slot r0 = r0 := by
        unfold spec_retag
        rw [if_neg h0]
      rw [hr0id]
      rw [hr0id] at hP
      exact absurd hP h0
  have h2 := apply_swap_perm_retag (apply_slot_swap df day now (some sd))
    day now sd hexp hf ht hsl2
  have h3 := h1.map (spec_retag day sd.from_slot sd.to_slot)
  have h4 : (df.map (spec_retag day sd.from_slot sd.to_slot)).map
      (spec_retag day sd.from_slot sd.to_slot) = df := by
    rw [List.map_map]
    calc df.map (spec_retag day sd.from_slot sd.to_slot ∘ spec_retag day sd.from_slot sd.to_slot)
        = df.map id :=
          List.map_congr_left (fun a _ => spec_retag_involutive day sd.from_slot sd.to_slot a)
      _ = df := List.map_id df
  rw [h4] at h3
  exact h2.trans h3

/-- C10, witness: the double application at a concrete Tuesday frame with the
swap 1 to 4 armed and unexpired. -/
theorem C10_witness :
    (apply_slot_swap (apply_slot_swap
      [⟨"Tuesday", "Arms Race", 1, "Base Boost", "T", "P"⟩,
       ⟨"Tuesday", "Arms Race", 4, "Tech Rush", "T2", "P"⟩]
      "Tuesday" ⟨200, 0⟩ (some ⟨0, 1, 4⟩)) "Tuesday" ⟨200, 0⟩ (some ⟨0, 1, 4⟩)).Perm
      [⟨"Tuesday", "Arms Race", 1, "Base Boost", "T", "P"⟩,
       ⟨"Tuesday", "Arms Race", 4, "Tech Rush", "T2", "P"⟩] :=
  C10_involution _ _ _ _ (by decide) (by decide) (by decide) (by decide)

/-- C6, code_bug evaluation.  With the default server offset of UTC minus two
hours, an override armed at 14:00 server time on its own game date (server
date index 0, instant 960, offset -120 minutes) is already counted as expired:
the UTC-midnight parse of the date shifts to 22:00 of the previous server day
before the clock is set to 02:00, so the computed validity window ends a full
day early.  canSwapToday therefore answers true, deletes the fresh override,
and a second arming is accepted the same game day, although the game-day
reset-to-reset window of the override (ending at instant 1680) has not
elapsed. -/
theorem C6_code_eval :
    is_swap_expired ⟨0, 2, 5⟩ ⟨960, -120⟩ = true
  ∧ (⟨960, -120⟩ : PDateTime).dateIdx = 0
  ∧ can_swap_today (some ⟨0, 2, 5⟩) ⟨960, -120⟩ = (true, none)
  ∧ arm_slot_swap (some ⟨0, 2, 5⟩) ⟨960, -120⟩ 3 6 = (true, some ⟨0, 3, 6⟩)
  ∧ (⟨960, -120⟩ : PDateTime).instant < spec_game_day_window_end 0 (-120)
  ∧ is_swap_expired ⟨0, 2, 5⟩ ⟨960, 0⟩ = false := by
  constructor
  · decide
  · constructor
    · decide
    · constructor
      · decide
      · exact ⟨by decide, by decide, by decide⟩

/-- C7.  Every reachable secretary store satisfies the five-minute window
invariant; setting a buff overwrites whatever is stored, the end being the
start plus five minutes; and a stored buff whose end has been reached is
cleared on observation.  At most one buff exists at any time by the shape of
the singleton store. -/
theorem C7_secretary_invariant : ∀ st : Option SecEvent, SecReachable st →
    (∀ e : SecEvent, st = some e → e.end_time_utc = e.start_time_utc + 5)
  ∧ (∀ (typ : String) (s : Int), set_secretary_buff st typ s = some ⟨typ, s, s + 5⟩)
  ∧ (∀ (now : Int) (e : SecEvent), st = some e → e.end_time_utc ≤ now →
      observe_secretary st now = none) := by
  intro st h
  refine ⟨?_, fun typ s => rfl, ?_⟩
  · induction h with
    | init => intro e he; cases he
    | step hst hstep ih =>
      rename_i st1 st2
      cases hstep with
      | set typ s =>
        intro e he
        unfold set_secretary_buff at he
        cases he
        rfl
      | observe now =>
        intro e he
        cases st1 with
        | none =>
          simp only [observe_secretary] at he
          cases he
        | some e0 =>
          simp only [observe_secretary] at he
          by_cases hc : e0.end_time_utc ≤ now
          · rw [if_pos hc] at he
            cases he
          · rw [if_neg hc] at he
            cases he
            exact ih _ rfl
      | clear => intro e he; cases he
  · intro now e he hle
    rw [he]
    simp only [observe_secretary]
    rw [if_pos hle]

/-- C7, witness: a reachable buff obtained by one set at instant 10, its
window invariant, and its auto-clear at instant 20. -/
theorem C7_witness :
    (15 : Int) = 10 + 5
  ∧ observe_secretary (some ⟨"Secretary of Science", 10, 15⟩) 20 = none := by
  have hr : SecReachable (some ⟨"Secretary of Science", 10, 15⟩) := by
    have h := SecReachable.step SecReachable.init
      (SecStep.set none "Secretary of Science" 10)
    simpa [set_secretary_buff] using h
  have h := C7_secretary_invariant _ hr
  exact ⟨h.1 _ rfl, h.2.2 20 _ rfl (by norm_num)⟩

/-- C9, code_bug evaluation.  A special event whose start_time field is not an
H:M string makes is_event_in_window raise (int() fails) once the day guard
passes, instead of treating the row as no data: here a Monday event with
start_time soon, evaluated at a Monday 10:00 window. -/
theorem C9_code_eval :
    is_event_in_window (fun _ => 0)
      ⟨"Evt", "Monday", "weekly", "0", "soon", "12:00"⟩ 600 = Except.error () := by
  decide

end LastWar
